import Mathlib

/-!
Verification of the filtering-and-aggregation pipeline of a COVID-19
hospitalization dashboard (`src/main.py`).

The pandas data frames of the source are modelled shallowly: a `Value` is one
cell (a string, an exact rational standing for the float, a parsed
first-of-month date encoded as the number `year * 100 + month`, or the missing
value `NaN`/`NaT`); a `Row` is an association list from column name to cell;
a `DataFrame` carries the column list and the rows.  Fallible source code
(`preprocess` raises `KeyError` when the `_yearmonth` column is absent) is
modelled with `Except`.  Float arithmetic is modelled exactly over `ℚ`;
Python string `.strip().lower().replace(" ", "_")` is modelled per character
over ASCII, which covers every column name the pipeline handles.
-/

namespace PjmfCovid

/-- Cell of a data frame: a string, a numeric value (exact rational in place of
the source's float), a parsed first-of-month date stored as `year*100+month`,
or the missing value (`NaN` / `NaT`). -/
inductive Value where
  | str (s : String)
  | num (q : Rat)
  | date (ym : Nat)
  | null
deriving DecidableEq, Repr

/-- Row of a data frame: association list from column name to cell. -/
abbrev Row := List (String × Value)

/-- Data frame: column names plus rows keyed by those names. -/
structure DataFrame where
  cols : List String
  rows : List Row
deriving DecidableEq, Repr

instance {ε α : Type} [DecidableEq ε] [DecidableEq α] :
    DecidableEq (Except ε α)
  | .error e, .error f =>
    if h : e = f then isTrue (by rw [h])
    else isFalse (fun c => h (Except.error.inj c))
  | .error _, .ok _ => isFalse Except.noConfusion
  | .ok _, .error _ => isFalse Except.noConfusion
  | .ok a, .ok b =>
    if h : a = b then isTrue (by rw [h])
    else isFalse (fun c => h (Except.ok.inj c))

/-- Cell of row `r` at column `c`; a missing key reads as the missing value. -/
def getV (r : Row) (c : String) : Value :=
  (r.lookup c).getD Value.null

/-- Overwrite every entry of row `r` keyed `c` with value `v`
(pandas column assignment to an existing column, seen row-wise). -/
def updateEntry (c : String) (v : Value) (r : Row) : Row :=
  r.map (fun p => if p.1 = c then (p.1, v) else p)

/-- Pandas column assignment seen row-wise: overwrite the entries keyed `c`
when the row has one, append the entry otherwise. -/
def setEntry (c : String) (v : Value) (r : Row) : Row :=
  if (r.lookup c).isSome then updateEntry c v r else r ++ [(c, v)]

/-! Column-name normalization (`main.py` line 93):
`c.strip().lower().replace(" ", "_")`, modelled per character over ASCII. -/

/-- ASCII lower-casing of one character, as `str.lower` acts on the basic
latin range (`Char.toLower` of core Lean does exactly this). -/
def lowerChar (c : Char) : Char := c.toLower

/-- Replacement step of `.replace(" ", "_")`, per character. -/
def repChar (c : Char) : Char := if c = ' ' then '_' else c

/-- Drop leading whitespace, one side of Python `str.strip()`. -/
def dropLeading (l : List Char) : List Char := l.dropWhile Char.isWhitespace

/-- Drop trailing whitespace, the other side of Python `str.strip()`. -/
def dropTrailing (l : List Char) : List Char :=
  (l.reverse.dropWhile Char.isWhitespace).reverse

/-- Python `str.strip()` on a character list. -/
def trimChars (l : List Char) : List Char := dropTrailing (dropLeading l)

/-- `main.py` line 93: `c.strip().lower().replace(" ", "_")`. -/
def normalizeName (c : String) : String :=
  String.mk ((trimChars c.data).map (fun ch => repChar (lowerChar ch)))

/-- `COLUMN_RENAME_MAP = {"monthlyrate": "hospitalization_rate"}` applied to
one column name (`main.py` lines 13 and 94). -/
def renameCol (c : String) : String :=
  if c = "monthlyrate" then "hospitalization_rate" else c

/-- Full column-name transformation of `preprocess`: normalization followed by
the rename table. -/
def nmCol (c : String) : String := renameCol (normalizeName c)

/-- Column-name normalization (`main.py` lines 92-94) on a whole frame; row
keys follow the columns, as a pandas rename renames positionally. -/
def normStage (df : DataFrame) : DataFrame :=
  ⟨df.cols.map nmCol, df.rows.map (fun r => r.map (fun p => (nmCol p.1, p.2)))⟩

/-! Year-month cleaning and date parsing (`main.py` lines 96-107). -/

/-- Rendering of a cell by `astype(str)`.  A numeric cell renders as the
integer when integral (`"202202"`); non-integral rationals render in `a/b`
form, which, like their float renderings, can never re-parse as a date.
A parsed date renders dashed, which likewise never re-parses. -/
def valueToStr (v : Value) : String :=
  match v with
  | .str s => s
  | .num q => if q.den = 1 then toString q.num else toString q
  | .date ym => toString (ym / 100) ++ "-" ++ toString (ym % 100) ++ "-01"
  | .null => "nan"

/-- Regex replacement `\.0$` → empty: strip one trailing `".0"` artifact. -/
def stripDotZero (s : String) : String :=
  if s.data.reverse.take 2 = ['0', '.'] then
    String.mk (s.data.reverse.drop 2).reverse
  else s

/-- Python `str.zfill(6)` on a character list: left-pad with `'0'` to six
characters, keeping a leading sign in front of the padding. -/
def zfillChars (l : List Char) : List Char :=
  if 6 ≤ l.length then l
  else
    match l with
    | c :: rest =>
      if c = '+' ∨ c = '-' then c :: (List.replicate (6 - l.length) '0' ++ rest)
      else List.replicate (6 - l.length) '0' ++ l
    | [] => List.replicate 6 '0'

/-- `str.zfill(6)` (`main.py` line 101). -/
def zfill6 (s : String) : String := String.mk (zfillChars s.data)

/-- Cleaned `_yearmonth` string of one cell (`main.py` lines 97-102). -/
def cleanYm (v : Value) : String := zfill6 (stripDotZero (valueToStr v))

/-- Value of a digit list read in base ten. -/
def digitsToNat (l : List Char) : Nat :=
  l.foldl (fun a c => a * 10 + (c.toNat - 48)) 0

/-- Parse of `ym ++ "01"` by `pd.to_datetime(·, format="%Y%m%d",
errors="coerce")` (`main.py` lines 104-106): after the `zfill(6)` the string
has at least six characters, so the eight-character `%Y%m%d` match succeeds
exactly when `ym` is six digits whose last two form a month `01`-`12` (day
`"01"` is valid in every such month; the bounded-timestamp range of pandas is
not modelled, it only shrinks the set of parseable codes). -/
def parseYearMonth (ym : String) : Option Nat :=
  if ym.data.length = 6 ∧ ym.data.all Char.isDigit then
    let m := digitsToNat (ym.data.drop 4)
    if 1 ≤ m ∧ m ≤ 12 then some (digitsToNat ym.data) else none
  else none

/-- Date cell produced for one row: `NaT` when the code fails to parse. -/
def dateOfYm (ym : String) : Value :=
  match parseYearMonth ym with
  | some n => Value.date n
  | none => Value.null

/-- Row step of `main.py` lines 97-106: clean the `_yearmonth` cell, then
store the parsed date in the `date` column. -/
def dateRowStep (r : Row) : Row :=
  let ys := cleanYm (getV r "_yearmonth")
  setEntry "date" (dateOfYm ys) (updateEntry "_yearmonth" (Value.str ys) r)

/-- Error raised by `cleaned["_yearmonth"]` when the column is absent. -/
def ymKeyError : String := "KeyError: _yearmonth"

/-- `main.py` lines 96-107: clean `_yearmonth`, derive `date`, and
`dropna(subset=["date"])`; raises `KeyError` when `_yearmonth` is absent. -/
def dateStage (df : DataFrame) : Except String DataFrame :=
  if "_yearmonth" ∈ df.cols then
    Except.ok
      ⟨if "date" ∈ df.cols then df.cols else df.cols ++ ["date"],
       (df.rows.map dateRowStep).filter
         (fun r => decide (getV r "date" ≠ Value.null))⟩
  else Except.error ymKeyError

/-- Decimal-literal parse of `pd.to_numeric(·, errors="coerce")` on a string:
an optional sign, digits, an optional fractional part (exponent forms are not
modelled; they do not occur in the data). -/
def parseNumeric (s : String) : Option Rat :=
  let t := trimChars s.data
  let neg : Bool := match t with | '-' :: _ => true | _ => false
  let u : List Char := match t with
    | '-' :: r => r
    | '+' :: r => r
    | r => r
  match u.splitOn '.' with
  | [a] =>
    if a ≠ [] ∧ a.all Char.isDigit then
      let n : Int := digitsToNat a
      some (((if neg then -n else n : Int) : Rat))
    else none
  | [a, b] =>
    if (a ++ b) ≠ [] ∧ (a ++ b).all Char.isDigit then
      let n : Int := digitsToNat (a ++ b)
      some (((if neg then -n else n : Int) : Rat) / ((10 : Rat) ^ b.length))
    else none
  | _ => none

/-- `pd.to_numeric(·, errors="coerce")` on one cell (`main.py` lines
111-113): numbers pass through, parseable strings convert, everything else
coerces to `NaN`. -/
def toNumericV (v : Value) : Value :=
  match v with
  | .num q => .num q
  | .str s => match parseNumeric s with | some q => .num q | none => .null
  | .date _ => .null
  | .null => .null

/-- `main.py` lines 110-114: when the `hospitalization_rate` column is
present, coerce it to numeric and `dropna` on it; otherwise leave the frame
untouched. -/
def rateStage (df : DataFrame) : DataFrame :=
  if "hospitalization_rate" ∈ df.cols then
    ⟨df.cols,
     (df.rows.map
        (fun r => updateEntry "hospitalization_rate"
          (toNumericV (getV r "hospitalization_rate")) r)).filter
       (fun r => decide (getV r "hospitalization_rate" ≠ Value.null))⟩
  else df

/-- `preprocess` (`main.py` lines 90-116). -/
def preprocess (df : DataFrame) : Except String DataFrame :=
  (dateStage (normStage df)).map rateStage

/-! Loader (`main.py` lines 75-131). -/

/-- `fetch_remote_data` (`main.py` lines 75-81): the outcome of
`pd.read_csv(DATA_URL)` is passed in as data; any raised error is swallowed
into `None`. -/
def fetch_remote_data (fetchResult : Except String DataFrame) :
    Option DataFrame :=
  match fetchResult with
  | .ok df => some df
  | .error _ => none

/-- Label returned by `get_data` when the remote fetch failed. -/
def localFallbackLabel : String := "Local file (remote fetch failed)"

/-- `get_data` (`main.py` lines 119-131): prefer the remote frame with a
timestamp, fall back to the local frame with the fallback label. -/
def get_data (fetchResult : Except String DataFrame) (localDf : DataFrame)
    (now : String) : Except String (DataFrame × String) :=
  match fetch_remote_data fetchResult with
  | some remote => (preprocess remote).map (fun d => (d, now))
  | none => (preprocess localDf).map (fun d => (d, localFallbackLabel))

/-! Canonical slice (`main.py` lines 137-151). -/

/-- Substring test on character lists, the semantics of
`Series.str.contains` with a literal pattern. -/
def hasSubChars (pat : List Char) : List Char → Bool
  | [] => pat.isPrefixOf []
  | c :: t => pat.isPrefixOf (c :: t) || hasSubChars pat t

/-- Columns `canonical_slice` requires (`main.py` line 142). -/
def canonRequired : List String :=
  ["sex_label", "race_label", "agecategory_legend", "type"]

/-- Row predicate of `canonical_slice` (`main.py` lines 145-150): the three
demographic dimensions equal `"All"` and the `type` cell contains the
substring `"Crude"` (`na=False`: a missing or non-string cell matches
nothing). -/
def canonMatch (r : Row) : Bool :=
  decide (getV r "sex_label" = Value.str "All") &&
  decide (getV r "race_label" = Value.str "All") &&
  decide (getV r "agecategory_legend" = Value.str "All") &&
  (match getV r "type" with
   | .str t => hasSubChars "Crude".data t.data
   | _ => false)

/-- `canonical_slice` (`main.py` lines 137-151). -/
def canonical_slice (df : DataFrame) : DataFrame :=
  if canonRequired.all (fun c => decide (c ∈ df.cols)) then
    ⟨df.cols, df.rows.filter canonMatch⟩
  else ⟨df.cols, []⟩

/-! Filter engine (`main.py` lines 213-222). -/

/-- Filter selections: dimension name to chosen values, in the iteration
order of the source's dict. -/
abbrev Selections := List (String × List String)

/-- Inclusive date-range test `(df["date"] >= lo) & (df["date"] <= hi)`; a
missing date (`NaT`) compares false on both sides. -/
def dateInRange (v : Value) (range : Nat × Nat) : Bool :=
  match v with
  | .date n => decide (range.1 ≤ n) && decide (n ≤ range.2)
  | _ => false

/-- `Series.isin(vals)` on one cell against a list of strings. -/
def valueIn (v : Value) (vals : List String) : Bool :=
  match v with
  | .str s => decide (s ∈ vals)
  | _ => false

/-- `apply_filters` (`main.py` lines 213-222): date range first, then each
dimension with a non-empty selection. -/
def apply_filters (df : DataFrame) (range : Nat × Nat) (sel : Selections) :
    DataFrame :=
  ⟨df.cols,
   sel.foldl
     (fun rs cv =>
       if cv.2 ≠ [] then rs.filter (fun r => valueIn (getV r cv.1) cv.2)
       else rs)
     (df.rows.filter (fun r => dateInRange (getV r "date") range))⟩

/-! Default-state restriction (`main.py` lines 69 and 228-240). -/

/-- `DEFAULT_STATES` (`main.py` line 69). -/
def DEFAULT_STATES : List String := ["COVID-NET", "New York", "California"]

/-- Sort key embedding cells into a linearly ordered type, giving the total
order used to model pandas sorting on the homogeneous columns the pipeline
sorts (strings compare lexicographically by code point, dates by code). -/
def sortKey (v : Value) : Nat ×ₗ (List Char ×ₗ (Rat ×ₗ Nat)) :=
  match v with
  | .null => toLex (0, toLex ([], toLex (0, 0)))
  | .str s => toLex (1, toLex (s.data, toLex (0, 0)))
  | .num q => toLex (2, toLex ([], toLex (q, 0)))
  | .date n => toLex (3, toLex ([], toLex (0, n)))

/-- Stable sort of a list by a key into a linear order (models pandas
`sorted` and ascending `sort_values`). -/
def sortOn {α : Type} {κ : Type} [LinearOrder κ] (f : α → κ) (l : List α) :
    List α :=
  List.insertionSort (fun a b => f a ≤ f b) l

/-- Distinct values of the `state` column, `df["state"].unique()`. -/
def uniqStates (df : DataFrame) : List Value :=
  (df.rows.map (fun r => getV r "state")).dedup

/-- `available_defaults` before the fallback (`main.py` line 236): the
default labels that occur in the data. -/
def availDefaults (df : DataFrame) : List Value :=
  (DEFAULT_STATES.filter (fun s => decide (Value.str s ∈ uniqStates df))).map
    Value.str

/-- Fallback `sorted(df["state"].unique())[:3]` (`main.py` line 238). -/
def firstThreeStates (df : DataFrame) : List Value :=
  (sortOn sortKey (uniqStates df)).take 3

/-- `restrict_initial_states` (`main.py` lines 228-240). -/
def restrict_initial_states (df : DataFrame) (sel : Selections) : DataFrame :=
  if (sel.lookup "state").getD [] ≠ [] then df
  else if df.rows = [] then df
  else
    let avail :=
      if availDefaults df ≠ [] then availDefaults df else firstThreeStates df
    ⟨df.cols, df.rows.filter (fun r => decide (getV r "state" ∈ avail))⟩

/-! Aggregators (`main.py` lines 243-254 and 274-289). -/

/-- Numeric content of a cell, if any. -/
def asNum (v : Value) : Option Rat :=
  match v with
  | .num q => some q
  | _ => none

/-- Mean of the `hospitalization_rate` cells of a group, as
`groupby(...).mean()` computes it: missing and non-numeric entries are
skipped, and an all-missing group means to `NaN`. -/
def groupMeanRate (rows : List Row) : Value :=
  let vs := rows.filterMap (fun r => asNum (getV r "hospitalization_rate"))
  if vs.length = 0 then Value.null
  else Value.num (vs.sum / (vs.length : Rat))

/-- Group key of the time-series aggregation. -/
def rowKey (r : Row) : Value × Value := (getV r "state", getV r "date")

/-- Group-key validity: `groupby` drops rows whose key holds a missing
value. -/
def keyOk (k : Value × Value) : Bool :=
  decide (k.1 ≠ Value.null) && decide (k.2 ≠ Value.null)

/-- Output row of the time-series aggregation for one group. -/
def tsRow (k : Value × Value) (v : Value) : Row :=
  [("state", k.1), ("date", k.2), ("hospitalization_rate", v)]

/-- Sort key of a `(state, date)` group key. -/
def pairKey (k : Value × Value) :
    (Nat ×ₗ (List Char ×ₗ (Rat ×ₗ Nat))) ×ₗ (Nat ×ₗ (List Char ×ₗ (Rat ×ₗ Nat))) :=
  toLex (sortKey k.1, sortKey k.2)

/-- `aggregate_for_time_series` (`main.py` lines 243-254): one mean per
`(state, date)` group (groups listed in sorted key order, as `groupby`
yields them), then `sort_values("date")` ascending. -/
def aggregate_for_time_series (df : DataFrame) : DataFrame :=
  if df.rows = [] then df
  else
    let valid := df.rows.filter (fun r => keyOk (rowKey r))
    let keys := sortOn pairKey (valid.map rowKey).dedup
    let grouped := keys.map
      (fun k => tsRow k (groupMeanRate (valid.filter (fun r => decide (rowKey r = k)))))
    ⟨["state", "date", "hospitalization_rate"],
     sortOn (fun r => sortKey (getV r "date")) grouped⟩

/-- Largest date present in the frame, `df["date"].max()` (missing dates are
skipped, as `max` skips `NaT`). -/
def maxDateCode (df : DataFrame) : Option Nat :=
  (df.rows.filterMap (fun r =>
    match getV r "date" with | .date n => some n | _ => none)).max?

/-- Rows of the latest date, `base_df[base_df["date"] == latest_date]`
(`main.py` lines 281-282); when every date is missing the equality against
`NaT` matches nothing. -/
def latestRows (df : DataFrame) : List Row :=
  match maxDateCode df with
  | none => []
  | some n => df.rows.filter (fun r => decide (getV r "date" = Value.date n))

/-- Per-state mean of a row set, `groupby("state").mean()` with keys in
sorted order and missing-state rows dropped. -/
def stateMeans (rows : List Row) : List Row :=
  let valid := rows.filter (fun r => decide (getV r "state" ≠ Value.null))
  let keys := sortOn sortKey (valid.map (fun r => getV r "state")).dedup
  keys.map (fun s =>
    [("state", s),
     ("hospitalization_rate",
      groupMeanRate (valid.filter (fun r => decide (getV r "state" = s))))])

/-- `aggregate_for_map` (`main.py` lines 274-289). -/
def aggregate_for_map (df : DataFrame) : DataFrame :=
  if df.rows = [] then df
  else
    let latest := latestRows df
    if latest = [] then ⟨df.cols, []⟩
    else ⟨["state", "hospitalization_rate"], stateMeans latest⟩

/-! Auxiliary predicates used to phrase the data-model invariants of the
spec (a `Dataset` row holds a string state, a parsed date, and a numeric
rate) as decidable hypotheses. -/

/-- Cell holds a string. -/
def isStrV : Value → Bool
  | .str _ => true
  | _ => false

/-- Cell holds a parsed date. -/
def isDateV : Value → Bool
  | .date _ => true
  | _ => false

/-- Cell holds a number. -/
def isNumV : Value → Bool
  | .num _ => true
  | _ => false

/-- Spec data-model invariant for an aggregation row: string `state`, parsed
`date`, numeric `hospitalization_rate`. -/
def wfTsRow (r : Row) : Bool :=
  isStrV (getV r "state") && isDateV (getV r "date") &&
    isNumV (getV r "hospitalization_rate")

/-- Numeric reading of the rate cell (`0` as the irrelevant default for
cells the well-formedness hypotheses exclude). -/
def rateOf (r : Row) : Rat :=
  match getV r "hospitalization_rate" with
  | .num q => q
  | _ => 0

/-- Date codes present in the frame. -/
def dateCodes (df : DataFrame) : List Nat :=
  df.rows.filterMap (fun r =>
    match getV r "date" with | .date n => some n | _ => none)

/-- Smallest date present, `df["date"].min()` (`main.py` line 166). -/
def minDateCode (df : DataFrame) : Option Nat := (dateCodes df).min?

/-! Concrete frames used by the claim instances. -/

/-- Frame whose states are California, New York, Texas: two of the three
default labels are present, but not all. -/
def c1Df : DataFrame :=
  ⟨["state"],
   [[("state", Value.str "California")],
    [("state", Value.str "New York")],
    [("state", Value.str "Texas")]]⟩

/-- Selection with an empty state entry. -/
def c1Sel : Selections := [("state", [])]

/-- Raw frame lacking any rate column. -/
def c2NoRateDf : DataFrame :=
  ⟨["_yearmonth"], [[("_yearmonth", Value.str "202202")]]⟩

/-- Raw frame with a valid row, a row with an unparseable year-month code,
and a row with an unparseable rate. -/
def c2MixedDf : DataFrame :=
  ⟨["_yearmonth", "MonthlyRate", "State"],
   [[("_yearmonth", Value.str "202202.0"), ("MonthlyRate", Value.str "5"),
     ("State", Value.str "New York")],
    [("_yearmonth", Value.str "abc"), ("MonthlyRate", Value.str "7"),
     ("State", Value.str "Texas")],
    [("_yearmonth", Value.str "202203"), ("MonthlyRate", Value.str "N/A"),
     ("State", Value.str "Ohio")]]⟩

/-- Preprocessed form of `c2MixedDf`: only the valid row survives. -/
def c2MixedOut : DataFrame :=
  ⟨["_yearmonth", "hospitalization_rate", "state", "date"],
   [[("_yearmonth", Value.str "202202"), ("hospitalization_rate", Value.num 5),
     ("state", Value.str "New York"), ("date", Value.date 202202)]]⟩

/-- Frame carrying well-formed aggregation rows with one duplicated
`(state, date)` group. -/
def c4Df : DataFrame :=
  ⟨["state", "date", "hospitalization_rate"],
   [[("state", Value.str "NY"), ("date", Value.date 202201),
     ("hospitalization_rate", Value.num 2)],
    [("state", Value.str "NY"), ("date", Value.date 202201),
     ("hospitalization_rate", Value.num 4)],
    [("state", Value.str "CA"), ("date", Value.date 202112),
     ("hospitalization_rate", Value.num 5)]]⟩

/-- Map-aggregation example of the spec: `{(CA, 2022-01, 5), (CA, 2022-02,
7), (NY, 2022-02, 3)}`. -/
def c5Df : DataFrame :=
  ⟨["state", "date", "hospitalization_rate"],
   [[("state", Value.str "CA"), ("date", Value.date 202201),
     ("hospitalization_rate", Value.num 5)],
    [("state", Value.str "CA"), ("date", Value.date 202202),
     ("hospitalization_rate", Value.num 7)],
    [("state", Value.str "NY"), ("date", Value.date 202202),
     ("hospitalization_rate", Value.num 3)]]⟩

/-- Expected map aggregation of `c5Df`: `{(CA, 7), (NY, 3)}`. -/
def c5Expected : DataFrame :=
  ⟨["state", "hospitalization_rate"],
   [[("state", Value.str "CA"), ("hospitalization_rate", Value.num 7)],
    [("state", Value.str "NY"), ("hospitalization_rate", Value.num 3)]]⟩

/-- Frame whose only date cell is missing, so no row carries the maximum
date. -/
def c5AllNaTDf : DataFrame :=
  ⟨["state", "date", "hospitalization_rate"],
   [[("state", Value.str "CA"), ("date", Value.null),
     ("hospitalization_rate", Value.num 5)]]⟩

/-- Frame for the filter claims: two states over two dates. -/
def c6Df : DataFrame :=
  ⟨["state", "date", "sex_label"],
   [[("state", Value.str "CA"), ("date", Value.date 202201),
     ("sex_label", Value.str "All")],
    [("state", Value.str "NY"), ("date", Value.date 202202),
     ("sex_label", Value.str "Female")]]⟩

/-- Two selections that are permutations of each other. -/
def c6SelA : Selections := [("state", ["CA"]), ("sex_label", [])]

/-- The other order of `c6SelA`. -/
def c6SelB : Selections := [("sex_label", []), ("state", ["CA"])]

/-- All-empty selection over the four dimensions of the sidebar. -/
def c7Sel : Selections :=
  [("state", []), ("agecategory_legend", []), ("sex_label", []),
   ("race_label", [])]

/-- Frame missing the `type` column but carrying the three demographic
columns. -/
def c8NoTypeDf : DataFrame :=
  ⟨["state", "sex_label", "race_label", "agecategory_legend"],
   [[("state", Value.str "CA"), ("sex_label", Value.str "All"),
     ("race_label", Value.str "All"),
     ("agecategory_legend", Value.str "All")]]⟩

/-- Raw frame without any `_yearmonth` column. -/
def c10NoYmDf : DataFrame :=
  ⟨["State", "MonthlyRate"],
   [[("State", Value.str "Ohio"), ("MonthlyRate", Value.str "5")]]⟩

/-- Raw frame with a `_yearmonth` column but no rate column. -/
def c10NoRateDf : DataFrame :=
  ⟨["_yearmonth", "State"],
   [[("_yearmonth", Value.str "202202"), ("State", Value.str "Ohio")],
    [("_yearmonth", Value.str "bad"), ("State", Value.str "Texas")]]⟩

/-! Association-list lemmas about `updateEntry` and `setEntry`. -/

theorem lookup_updateEntry_self (c : String) (v : Value) (r : Row) :
    (updateEntry c v r).lookup c = (r.lookup c).map (fun _ => v) := by
  induction r with
  | nil => rfl
  | cons p t ih =>
    obtain ⟨k, w⟩ := p
    show List.lookup c ((if k = c then (k, v) else (k, w)) :: updateEntry c v t) =
      Option.map (fun _ => v) (List.lookup c ((k, w) :: t))
    by_cases hk : k = c
    · subst hk
      rw [if_pos rfl]
      simp [List.lookup]
    · rw [if_neg hk]
      have hbeq : (c == k) = false := by
        simp only [beq_eq_false_iff_ne, ne_eq]
        exact fun e => hk e.symm
      simp [List.lookup, hbeq, ih]

theorem lookup_updateEntry_ne {c c' : String} (h : c' ≠ c) (v : Value)
    (r : Row) : (updateEntry c v r).lookup c' = r.lookup c' := by
  induction r with
  | nil => rfl
  | cons p t ih =>
    obtain ⟨k, w⟩ := p
    show List.lookup c' ((if k = c then (k, v) else (k, w)) :: updateEntry c v t) =
      List.lookup c' ((k, w) :: t)
    by_cases hk : k = c
    · subst hk
      rw [if_pos rfl]
      have hbeq : (c' == k) = false := by
        simp only [beq_eq_false_iff_ne, ne_eq]
        exact h
      simp [List.lookup, hbeq, ih]
    · rw [if_neg hk]
      by_cases hk' : c' = k
      · subst hk'
        simp [List.lookup]
      · have hbeq : (c' == k) = false := by
          simp only [beq_eq_false_iff_ne, ne_eq]
          exact hk'
        simp [List.lookup, hbeq, ih]

theorem lookup_setEntry_self (c : String) (v : Value) (r : Row) :
    (setEntry c v r).lookup c = some v := by
  unfold setEntry
  by_cases h : (r.lookup c).isSome
  · rw [if_pos h, lookup_updateEntry_self]
    obtain ⟨w, hw⟩ := Option.isSome_iff_exists.mp h
    rw [hw]; rfl
  · rw [if_neg h, List.lookup_append]
    rw [Option.not_isSome_iff_eq_none.mp h]
    simp [List.lookup]

theorem lookup_setEntry_ne {c c' : String} (h : c' ≠ c) (v : Value)
    (r : Row) : (setEntry c v r).lookup c' = r.lookup c' := by
  unfold setEntry
  by_cases hs : (r.lookup c).isSome
  · rw [if_pos hs, lookup_updateEntry_ne h]
  · rw [if_neg hs, List.lookup_append]
    have : List.lookup c' [(c, v)] = none := by
      have hbeq : (c' == c) = false := by
        simp only [beq_eq_false_iff_ne, ne_eq]
        exact h
      simp [List.lookup, hbeq]
    rw [this]
    cases r.lookup c' <;> rfl

theorem updateEntry_entries {c : String} {v : Value} {r : Row} {p} :
    p ∈ updateEntry c v r → p.1 = c → p.2 = v := by
  intro hp hc
  obtain ⟨q, hq, he⟩ := List.mem_map.mp hp
  by_cases h : q.1 = c
  · rw [if_pos h] at he; rw [← he]
  · rw [if_neg h] at he; subst he; exact absurd hc h

theorem updateEntry_of_all {c : String} {v : Value} {r : Row}
    (h : ∀ p ∈ r, p.1 = c → p.2 = v) : updateEntry c v r = r := by
  unfold updateEntry
  have hpt : ∀ p ∈ r, (if p.1 = c then (p.1, v) else p) = id p := by
    intro p hp
    by_cases hc : p.1 = c
    · rw [if_pos hc, id_eq]
      have hv := h p hp hc
      obtain ⟨a, b⟩ := p
      simp only at hv
      rw [hv]
    · rw [if_neg hc, id_eq]
  rw [List.map_congr_left hpt, List.map_id]

theorem mem_updateEntry_entry {c : String} {v : Value} {r : Row} {p} :
    p ∈ updateEntry c v r →
      ∃ q ∈ r, p.1 = q.1 ∧ (p = q ∨ (p.1 = c ∧ p.2 = v)) := by
  intro hp
  obtain ⟨q, hq, he⟩ := List.mem_map.mp hp
  by_cases h : q.1 = c
  · rw [if_pos h] at he
    exact ⟨q, hq, by rw [← he], Or.inr ⟨by rw [← he]; exact h, by rw [← he]⟩⟩
  · rw [if_neg h] at he
    exact ⟨q, hq, by rw [← he], Or.inl he.symm⟩

theorem mem_setEntry_entry {c : String} {v : Value} {r : Row} {p} :
    p ∈ setEntry c v r →
      (∃ q ∈ r, p.1 = q.1 ∧ (p = q ∨ (p.1 = c ∧ p.2 = v))) ∨
      p = (c, v) := by
  intro hp
  unfold setEntry at hp
  by_cases hs : (r.lookup c).isSome
  · rw [if_pos hs] at hp
    exact Or.inl (mem_updateEntry_entry hp)
  · rw [if_neg hs] at hp
    rcases List.mem_append.mp hp with h | h
    · exact Or.inl ⟨p, h, rfl, Or.inl rfl⟩
    · exact Or.inr (List.mem_singleton.mp h)

/-- C8: for every dataset missing any of the four columns the canonical
slice requires (sex, race, age category, rate type) — in particular one
missing the `type` column — `canonical_slice` returns an empty dataset
rather than failing; when all four are present it returns exactly the rows
whose age, sex, and race equal "All" and whose type contains the substring
"Crude". -/
theorem canonical_slice_spec :
    (∀ df : DataFrame, (canonical_slice df).cols = df.cols ∧
      (∀ r : Row, r ∈ (canonical_slice df).rows ↔
        canonRequired ⊆ df.cols ∧ r ∈ df.rows ∧ canonMatch r = true)) ∧
    canonical_slice c8NoTypeDf = ⟨c8NoTypeDf.cols, []⟩ := by
  constructor
  · intro df
    unfold canonical_slice
    by_cases h : canonRequired.all (fun c => decide (c ∈ df.cols)) = true
    · rw [if_pos h]
      refine ⟨rfl, fun r => ?_⟩
      have hsub : canonRequired ⊆ df.cols := by
        intro c hc
        have := List.all_eq_true.mp h c hc
        exact of_decide_eq_true this
      simp only [List.mem_filter]
      exact ⟨fun ⟨h1, h2⟩ => ⟨hsub, h1, h2⟩, fun ⟨_, h1, h2⟩ => ⟨h1, h2⟩⟩
    · rw [if_neg h]
      refine ⟨rfl, fun r => ?_⟩
      simp only [List.not_mem_nil, false_iff]
      rintro ⟨hsub, -, -⟩
      exact h (List.all_eq_true.mpr fun c hc => decide_eq_true (hsub hc))
  · decide

/-- C9: the loader never propagates a remote-fetch error: whatever the error
of the remote fetch was, `get_data` returns the preprocessed local fallback
frame with the fallback label (independently of the error), and on fetch
success it returns the preprocessed remote frame with the timestamp. -/
theorem get_data_spec :
    (∀ (err : String) (localDf : DataFrame) (now : String),
      get_data (Except.error err) localDf now =
        (preprocess localDf).map (fun d => (d, localFallbackLabel))) ∧
    (∀ (remote localDf : DataFrame) (now : String),
      get_data (Except.ok remote) localDf now =
        (preprocess remote).map (fun d => (d, now))) :=
  ⟨fun _ _ _ => rfl, fun _ _ _ => rfl⟩

/-- C10: `preprocess` is partial over schema drift: an input without a
`_yearmonth` column (after name normalization) makes it fail with an error,
while an input without the rate column is accepted and passes through the
date stage untouched by any rate coercion or rate-based dropping. -/
theorem preprocess_schema_drift :
    ∀ df : DataFrame,
      ("_yearmonth" ∉ (normStage df).cols →
        preprocess df = Except.error ymKeyError) ∧
      ("_yearmonth" ∈ (normStage df).cols →
        "hospitalization_rate" ∉ (normStage df).cols →
        preprocess df = dateStage (normStage df)) := by
  intro df
  constructor
  · intro h
    unfold preprocess dateStage
    rw [if_neg h]
    rfl
  · intro hy hr
    unfold preprocess dateStage
    rw [if_pos hy]
    show Except.ok (rateStage _) = _
    unfold rateStage
    rw [if_neg]
    show "hospitalization_rate" ∉
      (if "date" ∈ (normStage df).cols then (normStage df).cols
       else (normStage df).cols ++ ["date"])
    by_cases hd : "date" ∈ (normStage df).cols
    · rwa [if_pos hd]
    · rw [if_neg hd]
      intro hmem
      rcases List.mem_append.mp hmem with h1 | h1
      · exact hr h1
      · exact absurd (List.mem_singleton.mp h1) (by decide)

/-- Witness for C10: a frame without `_yearmonth` errors; a frame with
`_yearmonth` but no rate column passes the date stage through unchanged. -/
theorem preprocess_schema_drift_witness :
    ("_yearmonth" ∉ (normStage c10NoYmDf).cols ∧
      preprocess c10NoYmDf = Except.error ymKeyError) ∧
    ("_yearmonth" ∈ (normStage c10NoRateDf).cols ∧
      "hospitalization_rate" ∉ (normStage c10NoRateDf).cols ∧
      preprocess c10NoRateDf = dateStage (normStage c10NoRateDf)) :=
  ⟨⟨by decide, (preprocess_schema_drift c10NoYmDf).1 (by decide)⟩,
   ⟨by decide, by decide,
    (preprocess_schema_drift c10NoRateDf).2 (by decide) (by decide)⟩⟩

/-- C1 counterexample: on a frame whose states are California, New York and
Texas, not all of the preferred labels are present, so the claim mandates
the fallback to the first three states in sorted order (here: all three);
but the code restricts to the two preferred labels that are present, so its
output differs from the claim's mandate. -/
theorem restrict_initial_states_counterexample :
    DEFAULT_STATES.all (fun s => decide (Value.str s ∈ uniqStates c1Df)) =
      false ∧
    restrict_initial_states c1Df c1Sel ≠
      ⟨c1Df.cols,
       c1Df.rows.filter
         (fun r => decide (getV r "state" ∈ firstThreeStates c1Df))⟩ := by
  constructor
  · decide
  · decide

/-- C1 (amended): for a selection whose state entry is empty,
`restrict_initial_states` narrows the dataset to those preferred labels that
are present in the data when at least one of them is present, and otherwise
falls back to the first three states in sorted order. -/
theorem restrict_initial_states_amended :
    ∀ (df : DataFrame) (sel : Selections),
      (sel.lookup "state").getD [] = [] →
      restrict_initial_states df sel =
        ⟨df.cols,
         df.rows.filter (fun r => decide (getV r "state" ∈
           (if availDefaults df ≠ [] then availDefaults df
            else firstThreeStates df)))⟩ := by
  intro df sel hsel
  unfold restrict_initial_states
  rw [if_neg (by rw [hsel]; exact fun h => h rfl)]
  by_cases hdf : df.rows = []
  · rw [if_pos hdf]
    obtain ⟨cols, rows⟩ := df
    simp only at hdf
    subst hdf
    rfl
  · rw [if_neg hdf]

/-- Witness for C1's amended theorem at the concrete frame and empty-state
selection. -/
theorem restrict_initial_states_amended_witness :
    (c1Sel.lookup "state").getD [] = [] ∧
    restrict_initial_states c1Df c1Sel =
      ⟨c1Df.cols,
       c1Df.rows.filter (fun r => decide (getV r "state" ∈
         (if availDefaults c1Df ≠ [] then availDefaults c1Df
          else firstThreeStates c1Df)))⟩ :=
  ⟨by decide, restrict_initial_states_amended c1Df c1Sel (by decide)⟩

/-- C5: `aggregate_for_map` on the rows `{(CA, 2022-01, 5), (CA, 2022-02, 7),
(NY, 2022-02, 3)}` restricts to the maximum date 2022-02 and returns the
per-state means `{(CA, 7), (NY, 3)}`; and whenever the set of rows carrying
the maximum date is empty, the output has no rows. -/
theorem aggregate_for_map_spec :
    aggregate_for_map c5Df = c5Expected ∧
    (∀ df : DataFrame, latestRows df = [] →
      (aggregate_for_map df).rows = []) := by
  constructor
  · have h7 : groupMeanRate
        [[("state", Value.str "CA"), ("date", Value.date 202202),
          ("hospitalization_rate", Value.num 7)]] = Value.num 7 := by
      show Value.num (List.sum [(7 : Rat)] / ((1 : Nat) : Rat)) = Value.num 7
      norm_num
    have h3 : groupMeanRate
        [[("state", Value.str "NY"), ("date", Value.date 202202),
          ("hospitalization_rate", Value.num 3)]] = Value.num 3 := by
      show Value.num (List.sum [(3 : Rat)] / ((1 : Nat) : Rat)) = Value.num 3
      norm_num
    have e : aggregate_for_map c5Df =
        ⟨["state", "hospitalization_rate"],
         [[("state", Value.str "CA"),
           ("hospitalization_rate",
            groupMeanRate
              [[("state", Value.str "CA"), ("date", Value.date 202202),
                ("hospitalization_rate", Value.num 7)]])],
          [("state", Value.str "NY"),
           ("hospitalization_rate",
            groupMeanRate
              [[("state", Value.str "NY"), ("date", Value.date 202202),
                ("hospitalization_rate", Value.num 3)]])]]⟩ := rfl
    rw [e, h7, h3]
    rfl
  · intro df hlat
    unfold aggregate_for_map
    by_cases hdf : df.rows = []
    · rw [if_pos hdf]
      exact hdf
    · rw [if_neg hdf]
      show (if latestRows df = [] then DataFrame.mk df.cols [] else _).rows = []
      rw [if_pos hlat]

/-- Witness for C5's empty-restriction clause: a frame whose only date cell
is missing has no maximum date, so no row carries it and the map
aggregation is empty. -/
theorem aggregate_for_map_spec_witness :
    latestRows c5AllNaTDf = [] ∧ (aggregate_for_map c5AllNaTDf).rows = [] :=
  ⟨by decide, aggregate_for_map_spec.2 c5AllNaTDf (by decide)⟩

/-! Further association-list lemmas and facts about the rows surviving the
two dropping stages of `preprocess`. -/

theorem updateEntry_entries_ne {c : String} {v : Value} {r : Row} {p} :
    p ∈ updateEntry c v r → p.1 ≠ c → p ∈ r := by
  intro hp hne
  obtain ⟨q, hq, he⟩ := List.mem_map.mp hp
  by_cases h : q.1 = c
  · rw [if_pos h] at he
    exact absurd (by rw [← he]; exact h) hne
  · rw [if_neg h] at he
    exact he ▸ hq

theorem setEntry_entries {c : String} {v : Value} {r : Row} {p} :
    p ∈ setEntry c v r → p.1 = c → p.2 = v := by
  intro hp hc
  unfold setEntry at hp
  by_cases hs : (r.lookup c).isSome
  · rw [if_pos hs] at hp
    exact updateEntry_entries hp hc
  · rw [if_neg hs] at hp
    rcases List.mem_append.mp hp with h | h
    · exfalso
      have hnone : r.lookup c = none := Option.not_isSome_iff_eq_none.mp hs
      have hne := List.lookup_eq_none_iff.mp hnone p h
      rw [hc, bne_self_eq_false] at hne
      exact Bool.false_ne_true hne
    · rw [List.mem_singleton.mp h]

theorem setEntry_entries_ne {c c' : String} {v : Value} {r : Row} {p}
    (hne : c' ≠ c) : p ∈ setEntry c v r → p.1 = c' → p ∈ r := by
  intro hp hc
  unfold setEntry at hp
  by_cases hs : (r.lookup c).isSome
  · rw [if_pos hs] at hp
    exact updateEntry_entries_ne hp (by rw [hc]; exact hne)
  · rw [if_neg hs] at hp
    rcases List.mem_append.mp hp with h | h
    · exact h
    · exact absurd (by rw [List.mem_singleton.mp h] at hc; exact hc.symm)
        hne

theorem getV_updateEntry_ne {c c' : String} (h : c' ≠ c) (v : Value)
    (r : Row) : getV (updateEntry c v r) c' = getV r c' := by
  unfold getV
  rw [lookup_updateEntry_ne h]

theorem getV_setEntry_self (c : String) (v : Value) (r : Row) :
    getV (setEntry c v r) c = v := by
  unfold getV
  rw [lookup_setEntry_self]
  rfl

theorem getV_setEntry_ne {c c' : String} (h : c' ≠ c) (v : Value)
    (r : Row) : getV (setEntry c v r) c' = getV r c' := by
  unfold getV
  rw [lookup_setEntry_ne h]

theorem toNumericV_ne_null {v : Value} (h : toNumericV v ≠ Value.null) :
    ∃ q, toNumericV v = Value.num q := by
  cases v with
  | num q => exact ⟨q, rfl⟩
  | str s =>
    cases hq : parseNumeric s with
    | none =>
      exfalso
      apply h
      show (match parseNumeric s with
            | some q => Value.num q | none => Value.null) = Value.null
      rw [hq]
    | some q =>
      refine ⟨q, ?_⟩
      show (match parseNumeric s with
            | some q => Value.num q | none => Value.null) = Value.num q
      rw [hq]
  | date n => exact absurd rfl h
  | null => exact absurd rfl h

theorem parseYearMonth_cleanYm_null : parseYearMonth (cleanYm Value.null) = none := by
  decide

/-- Facts available about a row that survived the date `dropna`: its cleaned
year-month code `ys` parses to a date code `n`, the `date` cell holds that
date, the `_yearmonth` cell holds `ys`, and every entry keyed by either
column holds exactly that value. -/
theorem dateRowStep_facts {r₀ : Row}
    (h : getV (dateRowStep r₀) "date" ≠ Value.null) :
    ∃ (ys : String) (n : Nat),
      parseYearMonth ys = some n ∧
      getV (dateRowStep r₀) "date" = Value.date n ∧
      getV (dateRowStep r₀) "_yearmonth" = Value.str ys ∧
      (∀ p ∈ dateRowStep r₀, p.1 = "date" → p.2 = Value.date n) ∧
      (∀ p ∈ dateRowStep r₀, p.1 = "_yearmonth" → p.2 = Value.str ys) ∧
      ((dateRowStep r₀).lookup "date").isSome := by
  have hym_ne_date : ("_yearmonth" : String) ≠ "date" := by decide
  refine ⟨cleanYm (getV r₀ "_yearmonth"), ?_⟩
  have hdate : getV (dateRowStep r₀) "date" =
      dateOfYm (cleanYm (getV r₀ "_yearmonth")) := by
    unfold dateRowStep
    exact getV_setEntry_self _ _ _
  cases hp : parseYearMonth (cleanYm (getV r₀ "_yearmonth")) with
  | none =>
    exfalso
    apply h
    rw [hdate]
    unfold dateOfYm
    rw [hp]
  | some n =>
    have hd : dateOfYm (cleanYm (getV r₀ "_yearmonth")) = Value.date n := by
      unfold dateOfYm
      rw [hp]
    refine ⟨n, rfl, by rw [hdate, hd], ?_, ?_, ?_, ?_⟩
    · -- the `_yearmonth` cell of the stepped row
      unfold dateRowStep
      rw [getV_setEntry_ne hym_ne_date]
      cases hl : r₀.lookup "_yearmonth" with
      | none =>
        exfalso
        have : getV r₀ "_yearmonth" = Value.null := by
          unfold getV
          rw [hl]
          rfl
        rw [this] at hp
        rw [parseYearMonth_cleanYm_null] at hp
        exact Option.noConfusion hp
      | some w =>
        unfold getV
        rw [lookup_updateEntry_self, hl]
        rfl
    · -- every `date` entry holds the parsed date
      intro p hp' hc
      unfold dateRowStep at hp'
      have := setEntry_entries hp' hc
      rw [this, hd]
    · -- every `_yearmonth` entry holds the cleaned code
      intro p hp' hc
      unfold dateRowStep at hp'
      have hmem := setEntry_entries_ne (by decide) hp' hc
      exact updateEntry_entries hmem hc
    · -- the stepped row has a `date` entry
      unfold dateRowStep
      rw [lookup_setEntry_self]
      rfl

/-- Inversion of a successful `dateStage`. -/
theorem dateStage_ok {df mid : DataFrame}
    (h : dateStage df = Except.ok mid) :
    "_yearmonth" ∈ df.cols ∧
    mid.cols = (if "date" ∈ df.cols then df.cols else df.cols ++ ["date"]) ∧
    mid.rows = (df.rows.map dateRowStep).filter
      (fun r => decide (getV r "date" ≠ Value.null)) := by
  unfold dateStage at h
  by_cases hym : "_yearmonth" ∈ df.cols
  · rw [if_pos hym] at h
    injection h with h
    exact ⟨hym, by rw [← h], by rw [← h]⟩
  · rw [if_neg hym] at h
    exact Except.noConfusion h

/-- Inversion of `preprocess df = ok out` into the two stages. -/
theorem preprocess_ok {df out : DataFrame}
    (h : preprocess df = Except.ok out) :
    ∃ mid, dateStage (normStage df) = Except.ok mid ∧ out = rateStage mid := by
  unfold preprocess at h
  cases hd : dateStage (normStage df) with
  | error e =>
    rw [hd] at h
    exact Except.noConfusion h
  | ok mid =>
    rw [hd] at h
    refine ⟨mid, rfl, ?_⟩
    have : Except.ok (ε := String) (rateStage mid) = Except.ok out := h
    injection this with h'
    exact h'.symm

/-- C2 counterexample: an input without any rate column is accepted by
`preprocess`, and the returned dataset has a row whose
`hospitalization_rate` reads as the missing value, so "every row has a
non-null numeric hospitalization_rate" fails for this raw input. -/
theorem preprocess_nonnull_counterexample :
    preprocess c2NoRateDf =
      Except.ok
        ⟨["_yearmonth", "date"],
         [[("_yearmonth", Value.str "202202"),
           ("date", Value.date 202202)]]⟩ ∧
    ((Except.ok
        ⟨["_yearmonth", "date"],
         [[("_yearmonth", Value.str "202202"),
           ("date", Value.date 202202)]]⟩ : Except String DataFrame).toOption.all
      (fun out => out.rows.all
        (fun r => decide (getV r "hospitalization_rate" ≠ Value.null)))) =
      false := by
  constructor
  · decide
  · decide

/-- C2 (amended): every row of a dataset returned by `preprocess` has a
non-null parsed date, and — whenever the rate column is present in the
output — a non-null numeric `hospitalization_rate`; rows failing the date
parse or the rate coercion are dropped rather than causing an error. -/
theorem preprocess_nonnull_amended :
    ∀ (df out : DataFrame), preprocess df = Except.ok out →
      ∀ r ∈ out.rows,
        (∃ n, getV r "date" = Value.date n) ∧
        ("hospitalization_rate" ∈ out.cols →
          ∃ q, getV r "hospitalization_rate" = Value.num q) := by
  intro df out hp r hr
  obtain ⟨mid, hd, hout⟩ := preprocess_ok hp
  obtain ⟨-, -, hrows⟩ := dateStage_ok hd
  have hmid_date : ∀ r₁ ∈ mid.rows, ∃ n, getV r₁ "date" = Value.date n := by
    intro r₁ h₁
    rw [hrows] at h₁
    obtain ⟨hmem, hpred⟩ := List.mem_filter.mp h₁
    obtain ⟨r₀, -, hstep⟩ := List.mem_map.mp hmem
    obtain ⟨ys, n, -, hdate, -⟩ :=
      dateRowStep_facts (of_decide_eq_true (hstep ▸ hpred))
    exact ⟨n, by rw [← hstep]; exact hdate⟩
  unfold rateStage at hout
  by_cases hrc : "hospitalization_rate" ∈ mid.cols
  · rw [if_pos hrc] at hout
    subst hout
    obtain ⟨hmem, hpred⟩ := List.mem_filter.mp hr
    obtain ⟨r₁, h₁, hupd⟩ := List.mem_map.mp hmem
    have hratene : ("date" : String) ≠ "hospitalization_rate" := by decide
    constructor
    · obtain ⟨n, hn⟩ := hmid_date r₁ h₁
      exact ⟨n, by rw [← hupd, getV_updateEntry_ne hratene, hn]⟩
    · intro _
      have hne : getV r "hospitalization_rate" ≠ Value.null :=
        of_decide_eq_true hpred
      have hgv : getV r "hospitalization_rate" =
          ((r₁.lookup "hospitalization_rate").map
            (fun _ => toNumericV (getV r₁ "hospitalization_rate"))).getD
            Value.null := by
        rw [← hupd]
        unfold getV
        rw [lookup_updateEntry_self]
      cases hl : r₁.lookup "hospitalization_rate" with
      | none =>
        rw [hgv, hl] at hne
        exact absurd rfl hne
      | some w =>
        rw [hgv, hl] at hne
        obtain ⟨q, hq⟩ := toNumericV_ne_null
          (v := getV r₁ "hospitalization_rate") hne
        refine ⟨q, ?_⟩
        rw [hgv, hl]
        exact hq
  · rw [if_neg hrc] at hout
    subst hout
    exact ⟨hmid_date r hr, fun hc => absurd hc hrc⟩

/-- Witness for C2's amended theorem: a raw frame with one valid row, one
row with an unparseable date code, and one with an unparseable rate
preprocesses to exactly the valid row, which satisfies both conclusions. -/
theorem preprocess_nonnull_amended_witness :
    preprocess c2MixedDf = Except.ok c2MixedOut ∧
    ∀ r ∈ c2MixedOut.rows,
      (∃ n, getV r "date" = Value.date n) ∧
      ("hospitalization_rate" ∈ c2MixedOut.cols →
        ∃ q, getV r "hospitalization_rate" = Value.num q) :=
  ⟨by decide, preprocess_nonnull_amended c2MixedDf c2MixedOut (by decide)⟩

/-! Filter-engine lemmas. -/

theorem selFold_eq_filter (sel : Selections) (acc : List Row) :
    sel.foldl
      (fun rs cv =>
        if cv.2 ≠ [] then rs.filter (fun r => valueIn (getV r cv.1) cv.2)
        else rs) acc =
    acc.filter (fun r =>
      sel.all (fun cv => decide (cv.2 = []) || valueIn (getV r cv.1) cv.2)) := by
  induction sel generalizing acc with
  | nil => simp
  | cons cv t ih =>
    show t.foldl _
        (if cv.2 ≠ [] then acc.filter (fun r => valueIn (getV r cv.1) cv.2)
         else acc) = _
    by_cases h : cv.2 = []
    · rw [if_neg (not_not_intro h), ih]
      apply List.filter_congr
      intro r _
      simp [List.all_cons, h]
    · rw [if_pos h, ih, List.filter_filter]
      apply List.filter_congr
      intro r _
      have hd : decide (cv.2 = []) = false := decide_eq_false h
      simp only [List.all_cons, hd, Bool.false_or]
      exact Bool.and_comm _ _

/-- Characterization of `apply_filters`: one filter over the original rows,
a conjunction of the date-range test and the per-dimension tests. -/
theorem apply_filters_rows (df : DataFrame) (range : Nat × Nat)
    (sel : Selections) :
    apply_filters df range sel =
      ⟨df.cols,
       df.rows.filter (fun r =>
         dateInRange (getV r "date") range &&
         sel.all (fun cv =>
           decide (cv.2 = []) || valueIn (getV r cv.1) cv.2))⟩ := by
  unfold apply_filters
  rw [selFold_eq_filter, List.filter_filter]
  congr 1
  apply List.filter_congr
  intro r _
  exact Bool.and_comm _ _

theorem perm_all_eq {α : Type} {l l' : List α} (h : l.Perm l')
    (f : α → Bool) : l.all f = l'.all f := by
  have hiff : l.all f = true ↔ l'.all f = true := by
    simp only [List.all_eq_true]
    exact ⟨fun ha a ha' => ha a (h.mem_iff.mpr ha'),
           fun ha a ha' => ha a (h.mem_iff.mp ha')⟩
  cases hb : l'.all f
  · cases hb' : l.all f
    · rfl
    · rw [hiff.mp hb'] at hb
      exact hb
  · exact hiff.mpr hb

/-- C6: `apply_filters` gives the same result whatever the order in which
the categorical dimensions are processed, and a row survives exactly when
its date is in range and, for every dimension with a non-empty selected
set, its value is in the set (an empty set imposing no constraint). -/
theorem apply_filters_comm :
    (∀ (df : DataFrame) (range : Nat × Nat) (sel sel' : Selections),
      sel.Perm sel' →
      apply_filters df range sel = apply_filters df range sel') ∧
    (∀ (df : DataFrame) (range : Nat × Nat) (sel : Selections) (r : Row),
      r ∈ (apply_filters df range sel).rows ↔
        r ∈ df.rows ∧ dateInRange (getV r "date") range = true ∧
        ∀ cv ∈ sel, cv.2 = [] ∨ valueIn (getV r cv.1) cv.2 = true) := by
  constructor
  · intro df range sel sel' hperm
    rw [apply_filters_rows, apply_filters_rows]
    congr 1
    apply List.filter_congr
    intro r _
    rw [perm_all_eq hperm]
  · intro df range sel r
    rw [apply_filters_rows]
    show r ∈ df.rows.filter _ ↔ _
    rw [List.mem_filter]
    simp only [Bool.and_eq_true, List.all_eq_true, Bool.or_eq_true,
      decide_eq_true_eq, and_assoc]

/-- Witness for C6 at a concrete frame and a two-element selection and its
transposition. -/
theorem apply_filters_comm_witness :
    c6SelA.Perm c6SelB ∧
    apply_filters c6Df (202201, 202202) c6SelA =
      apply_filters c6Df (202201, 202202) c6SelB :=
  ⟨by decide,
   apply_filters_comm.1 c6Df (202201, 202202) c6SelA c6SelB (by decide)⟩

/-- C7: `apply_filters` returns the dataset unchanged when every dimension's
selected set is empty and the date range is exactly the dataset's minimum
and maximum dates (the dates being non-null, as the spec's data model
guarantees for a preprocessed Dataset). -/
theorem apply_filters_noop :
    ∀ (df : DataFrame) (sel : Selections) (lo hi : Nat),
      df.rows.all (fun r => isDateV (getV r "date")) = true →
      sel.all (fun cv => decide (cv.2 = [])) = true →
      minDateCode df = some lo → maxDateCode df = some hi →
      apply_filters df (lo, hi) sel = df := by
  intro df sel lo hi hdates hsel hmin hmax
  rw [apply_filters_rows]
  have hlo : ∀ n ∈ dateCodes df, lo ≤ n := by
    intro n hn
    exact (List.le_min?_iff (fun a b c => Nat.le_min) hmin).1
      (Nat.le_refl lo) n hn
  have hhi : ∀ n ∈ dateCodes df, n ≤ hi := by
    intro n hn
    exact (List.max?_le_iff (fun a b c => Nat.max_le) hmax).1
      (Nat.le_refl hi) n hn
  have hfil :
      df.rows.filter (fun r =>
        dateInRange (getV r "date") (lo, hi) &&
        sel.all (fun cv =>
          decide (cv.2 = []) || valueIn (getV r cv.1) cv.2)) = df.rows := by
    rw [List.filter_eq_self]
    intro r hr
    rw [Bool.and_eq_true]
    constructor
    · have hd := List.all_eq_true.mp hdates r hr
      cases hv : getV r "date" with
      | date n =>
        have hmem : n ∈ dateCodes df :=
          List.mem_filterMap.mpr ⟨r, hr, by rw [hv]⟩
        show (decide (lo ≤ n) && decide (n ≤ hi)) = true
        rw [decide_eq_true (hlo n hmem), decide_eq_true (hhi n hmem)]
        rfl
      | str s => rw [hv] at hd; exact Bool.noConfusion hd
      | num q => rw [hv] at hd; exact Bool.noConfusion hd
      | null => rw [hv] at hd; exact Bool.noConfusion hd
    · apply List.all_eq_true.mpr
      intro cv hcv
      have := List.all_eq_true.mp hsel cv hcv
      rw [this]
      rfl
  rw [hfil]

/-- Witness for C7 at a concrete frame whose dates span `(202112, 202201)`
and the sidebar's four all-empty selections. -/
theorem apply_filters_noop_witness :
    c4Df.rows.all (fun r => isDateV (getV r "date")) = true ∧
    c7Sel.all (fun cv => decide (cv.2 = [])) = true ∧
    minDateCode c4Df = some 202112 ∧ maxDateCode c4Df = some 202201 ∧
    apply_filters c4Df (202112, 202201) c7Sel = c4Df :=
  ⟨by decide, by decide, by decide, by decide,
   apply_filters_noop c4Df c7Sel 202112 202201 (by decide) (by decide)
     (by decide) (by decide)⟩

/-! Aggregation lemmas. -/

theorem filterMap_eq_map_of_all {α β : Type} {l : List α} {f : α → Option β}
    {g : α → β} (h : ∀ a ∈ l, f a = some (g a)) : l.filterMap f = l.map g := by
  induction l with
  | nil => rfl
  | cons a t ih =>
    rw [List.filterMap_cons, h a (List.mem_cons_self a t), List.map_cons,
      ih (fun b hb => h b (List.mem_cons_of_mem a hb))]

theorem wfTsRow_parts {r : Row} (h : wfTsRow r = true) :
    (∃ s, getV r "state" = Value.str s) ∧
    (∃ n, getV r "date" = Value.date n) ∧
    (∃ q, getV r "hospitalization_rate" = Value.num q) := by
  unfold wfTsRow at h
  rw [Bool.and_eq_true, Bool.and_eq_true] at h
  obtain ⟨⟨h1, h2⟩, h3⟩ := h
  refine ⟨?_, ?_, ?_⟩
  · cases hv : getV r "state" <;> rw [hv] at h1 <;>
      first
      | exact ⟨_, rfl⟩
      | exact Bool.noConfusion h1
  · cases hv : getV r "date" <;> rw [hv] at h2 <;>
      first
      | exact ⟨_, rfl⟩
      | exact Bool.noConfusion h2
  · cases hv : getV r "hospitalization_rate" <;> rw [hv] at h3 <;>
      first
      | exact ⟨_, rfl⟩
      | exact Bool.noConfusion h3

theorem groupMeanRate_of_wf {rows : List Row}
    (hall : ∀ r ∈ rows,
      asNum (getV r "hospitalization_rate") = some (rateOf r))
    (hne : rows ≠ []) :
    groupMeanRate rows =
      Value.num ((rows.map rateOf).sum / ((rows.length : Nat) : Rat)) := by
  simp only [groupMeanRate]
  rw [filterMap_eq_map_of_all hall, List.length_map,
    if_neg (fun hz => hne (List.length_eq_zero.mp hz))]

theorem wf_keyOk {r : Row} (h : wfTsRow r = true) : keyOk (rowKey r) = true := by
  obtain ⟨⟨s, hs⟩, ⟨n, hn⟩, -⟩ := wfTsRow_parts h
  unfold keyOk rowKey
  rw [hs, hn]
  rfl

theorem wf_asNum {r : Row} (h : wfTsRow r = true) :
    asNum (getV r "hospitalization_rate") = some (rateOf r) := by
  obtain ⟨-, -, q, hq⟩ := wfTsRow_parts h
  unfold asNum rateOf
  rw [hq]

/-- C4: on every well-formed dataset (string states, parsed dates, numeric
rates, as the spec's data model guarantees), the time-series aggregation
yields exactly one row per `(state, date)` pair present in the input, with
rate the arithmetic mean of `hospitalization_rate` over the rows of that
group, sorted ascending by date; an empty input is returned unchanged. -/
theorem aggregate_for_time_series_spec :
    ∀ df : DataFrame, df.rows.all wfTsRow = true →
      (df.rows = [] → aggregate_for_time_series df = df) ∧
      ((aggregate_for_time_series df).rows.map rowKey).Nodup ∧
      (∀ k, k ∈ (aggregate_for_time_series df).rows.map rowKey ↔
        k ∈ df.rows.map rowKey) ∧
      (∀ r' ∈ (aggregate_for_time_series df).rows,
        getV r' "hospitalization_rate" =
          Value.num
            (((df.rows.filter
                (fun r => decide (rowKey r = rowKey r'))).map rateOf).sum /
             (((df.rows.filter
                (fun r => decide (rowKey r = rowKey r'))).length : Nat) : Rat))) ∧
      List.Pairwise
        (fun a b => sortKey (getV a "date") ≤ sortKey (getV b "date"))
        (aggregate_for_time_series df).rows := by
  intro df hwf
  have hwf' := List.all_eq_true.mp hwf
  by_cases hrows : df.rows = []
  · have hagg : aggregate_for_time_series df = df := by
      unfold aggregate_for_time_series
      rw [if_pos hrows]
    refine ⟨fun _ => hagg, ?_, ?_, ?_, ?_⟩ <;> rw [hagg, hrows] <;> simp
  · have hvalid : df.rows.filter (fun r => keyOk (rowKey r)) = df.rows :=
      List.filter_eq_self.mpr (fun r hr => wf_keyOk (hwf' r hr))
    have hagg : aggregate_for_time_series df =
        ⟨["state", "date", "hospitalization_rate"],
         sortOn (fun r => sortKey (getV r "date"))
           ((sortOn pairKey (df.rows.map rowKey).dedup).map
             (fun k => tsRow k (groupMeanRate
               (df.rows.filter (fun r => decide (rowKey r = k))))))⟩ := by
      unfold aggregate_for_time_series
      rw [if_neg hrows, hvalid]
    have hmk : ∀ (k : Value × Value) (v : Value), rowKey (tsRow k v) = k :=
      fun k v => rfl
    have hmkr : ∀ (k : Value × Value) (v : Value),
        getV (tsRow k v) "hospitalization_rate" = v := fun k v => rfl
    have hperm1 :
        (sortOn (fun r => sortKey (getV r "date"))
          ((sortOn pairKey (df.rows.map rowKey).dedup).map
            (fun k => tsRow k (groupMeanRate
              (df.rows.filter (fun r => decide (rowKey r = k))))))).Perm
        ((sortOn pairKey (df.rows.map rowKey).dedup).map
          (fun k => tsRow k (groupMeanRate
            (df.rows.filter (fun r => decide (rowKey r = k)))))) :=
      List.perm_insertionSort _ _
    have hperm2 :
        (sortOn pairKey (df.rows.map rowKey).dedup).Perm
          (df.rows.map rowKey).dedup :=
      List.perm_insertionSort _ _
    have hmapkeys :
        ((sortOn pairKey (df.rows.map rowKey).dedup).map
          (fun k => tsRow k (groupMeanRate
            (df.rows.filter (fun r => decide (rowKey r = k)))))).map rowKey =
        sortOn pairKey (df.rows.map rowKey).dedup := by
      rw [List.map_map]
      exact (List.map_congr_left (fun k _ => hmk k _)).trans (List.map_id _)
    have hchain :
        ((aggregate_for_time_series df).rows.map rowKey).Perm
          (df.rows.map rowKey).dedup := by
      rw [hagg]
      have h1 := hperm1.map rowKey
      rw [hmapkeys] at h1
      exact h1.trans hperm2
    refine ⟨fun h => absurd h hrows, ?_, ?_, ?_, ?_⟩
    · exact hchain.nodup_iff.mpr (List.nodup_dedup _)
    · intro k
      rw [hchain.mem_iff, List.mem_dedup]
    · intro r' hr'
      rw [hagg] at hr'
      have hr'' := (hperm1.mem_iff).mp hr'
      obtain ⟨k, hk, hrk⟩ := List.mem_map.mp hr''
      have hkey : rowKey r' = k := by rw [← hrk]; exact hmk k _
      have hkK : k ∈ df.rows.map rowKey :=
        List.mem_dedup.mp (hperm2.mem_iff.mp hk)
      obtain ⟨r₀, hr₀, hk₀⟩ := List.mem_map.mp hkK
      have hmem₀ : r₀ ∈ df.rows.filter (fun r => decide (rowKey r = k)) :=
        List.mem_filter.mpr ⟨hr₀, decide_eq_true hk₀⟩
      have hgrp_sub : ∀ a ∈ df.rows.filter (fun r => decide (rowKey r = k)),
          a ∈ df.rows := fun a ha => (List.mem_filter.mp ha).1
      have hne : df.rows.filter (fun r => decide (rowKey r = k)) ≠ [] := by
        intro hz
        rw [hz] at hmem₀
        exact List.not_mem_nil r₀ hmem₀
      rw [hkey, ← hrk, hmkr]
      exact groupMeanRate_of_wf
        (fun a ha => wf_asNum (hwf' a (hgrp_sub a ha))) hne
    · rw [hagg]
      haveI hto : IsTotal Row
          (fun a b => sortKey (getV a "date") ≤ sortKey (getV b "date")) :=
        ⟨fun a b => le_total _ _⟩
      haveI htr : IsTrans Row
          (fun a b => sortKey (getV a "date") ≤ sortKey (getV b "date")) :=
        ⟨fun a b c h1 h2 => le_trans h1 h2⟩
      exact List.sorted_insertionSort _ _

/-- Witness for C4 at a concrete well-formed frame with one duplicated
`(state, date)` group. -/
theorem aggregate_for_time_series_spec_witness :
    c4Df.rows.all wfTsRow = true ∧
    ((c4Df.rows = [] → aggregate_for_time_series c4Df = c4Df) ∧
      ((aggregate_for_time_series c4Df).rows.map rowKey).Nodup ∧
      (∀ k, k ∈ (aggregate_for_time_series c4Df).rows.map rowKey ↔
        k ∈ c4Df.rows.map rowKey) ∧
      (∀ r' ∈ (aggregate_for_time_series c4Df).rows,
        getV r' "hospitalization_rate" =
          Value.num
            (((c4Df.rows.filter
                (fun r => decide (rowKey r = rowKey r'))).map rateOf).sum /
             (((c4Df.rows.filter
                (fun r => decide (rowKey r = rowKey r'))).length : Nat) : Rat))) ∧
      List.Pairwise
        (fun a b => sortKey (getV a "date") ≤ sortKey (getV b "date"))
        (aggregate_for_time_series c4Df).rows) :=
  ⟨by decide, aggregate_for_time_series_spec c4Df (by decide)⟩

/-! Character-level lemmas supporting the idempotence of column-name
normalization. -/

theorem toNat_ofNat_valid {n : Nat} (h : n < 55296) :
    (Char.ofNat n).toNat = n := by
  have hv : n.isValidChar := Or.inl h
  unfold Char.ofNat
  rw [dif_pos hv]
  simp [Char.ofNatAux, Char.toNat, UInt32.toNat]

theorem char_toLower_idem (c : Char) : c.toLower.toLower = c.toLower := by
  show Char.toLower (Char.toLower c) = Char.toLower c
  unfold Char.toLower
  by_cases h : c.toNat ≥ 65 ∧ c.toNat ≤ 90
  · rw [if_pos h]
    have ht : (Char.ofNat (c.toNat + 32)).toNat = c.toNat + 32 :=
      toNat_ofNat_valid (by omega)
    rw [if_neg (by rw [ht]; omega)]
  · rw [if_neg h, if_neg h]

theorem char_toLower_eq_space {c : Char} (h : c.toLower = ' ') : c = ' ' := by
  by_cases hr : c.toNat ≥ 65 ∧ c.toNat ≤ 90
  · exfalso
    have hl : c.toLower = Char.ofNat (c.toNat + 32) := by
      show Char.toLower c = _
      unfold Char.toLower
      rw [if_pos hr]
    have ht : (Char.ofNat (c.toNat + 32)).toNat = c.toNat + 32 :=
      toNat_ofNat_valid (by omega)
    have h32 := congrArg Char.toNat (hl.symm.trans h)
    rw [ht] at h32
    have hsp : (' ' : Char).toNat = 32 := rfl
    omega
  · have hl : c.toLower = c := by
      show Char.toLower c = c
      unfold Char.toLower
      rw [if_neg hr]
    rwa [hl] at h

theorem char_ne_of_toNat_ne {a b : Char} (h : a.toNat ≠ b.toNat) : a ≠ b :=
  fun e => h (congrArg Char.toNat e)

theorem isWhitespace_of_toNat {c : Char} (h1 : c.toNat ≠ 32)
    (h2 : c.toNat ≠ 9) (h3 : c.toNat ≠ 13) (h4 : c.toNat ≠ 10) :
    c.isWhitespace = false := by
  have e1 : c ≠ ' ' := char_ne_of_toNat_ne (by rw [show (' ' : Char).toNat = 32 from rfl]; exact h1)
  have e2 : c ≠ '\t' := char_ne_of_toNat_ne (by rw [show ('\t' : Char).toNat = 9 from rfl]; exact h2)
  have e3 : c ≠ '\r' := char_ne_of_toNat_ne (by rw [show ('\r' : Char).toNat = 13 from rfl]; exact h3)
  have e4 : c ≠ '\n' := char_ne_of_toNat_ne (by rw [show ('\n' : Char).toNat = 10 from rfl]; exact h4)
  simp [Char.isWhitespace, e1, e2, e3, e4]

theorem ws_toLower_false {c : Char} (h : c.isWhitespace = false) :
    c.toLower.isWhitespace = false := by
  by_cases hr : c.toNat ≥ 65 ∧ c.toNat ≤ 90
  · have hl : c.toLower = Char.ofNat (c.toNat + 32) := by
      show Char.toLower c = _
      unfold Char.toLower
      rw [if_pos hr]
    have ht : (Char.ofNat (c.toNat + 32)).toNat = c.toNat + 32 :=
      toNat_ofNat_valid (by omega)
    rw [hl]
    exact isWhitespace_of_toNat (by omega) (by omega) (by omega) (by omega)
  · have hl : c.toLower = c := by
      show Char.toLower c = c
      unfold Char.toLower
      rw [if_neg hr]
    rwa [hl]

/-- One normalized character of a column name: lower-cased, spaces replaced
by underscores. -/
theorem normChar_def (c : Char) : repChar (lowerChar c) =
    (if c.toLower = ' ' then '_' else c.toLower) := rfl

theorem normChar_idem (c : Char) :
    repChar (lowerChar (repChar (lowerChar c))) = repChar (lowerChar c) := by
  by_cases h : c.toLower = ' '
  · rw [normChar_def c, if_pos h]
    decide
  · rw [normChar_def c, if_neg h, normChar_def, char_toLower_idem, if_neg h]

theorem ws_normChar_false {c : Char} (h : c.isWhitespace = false) :
    (repChar (lowerChar c)).isWhitespace = false := by
  rw [normChar_def]
  by_cases hsp : c.toLower = ' '
  · rw [if_pos hsp]
    rfl
  · rw [if_neg hsp]
    exact ws_toLower_false h

/-! Stability of `trimChars` under the per-character normalization, and
idempotence of `normalizeName` and `nmCol`. -/

theorem head?_dropWhile_false {α : Type} (p : α → Bool) (l : List α) {a : α}
    (h : (l.dropWhile p).head? = some a) : p a = false := by
  have hw := List.head?_dropWhile_not p l
  rw [h] at hw
  exact hw

theorem dropWhile_eq_self_of_head {α : Type} {p : α → Bool} {l : List α}
    (h : ∀ a, l.head? = some a → p a = false) : l.dropWhile p = l := by
  cases l with
  | nil => rfl
  | cons a t =>
    apply List.dropWhile_cons_of_neg
    rw [h a rfl]
    exact Bool.false_ne_true

theorem dropTrailing_isPrefixOf (l : List Char) : dropTrailing l <+: l := by
  unfold dropTrailing
  obtain ⟨t, ht⟩ := List.dropWhile_suffix (l := l.reverse) Char.isWhitespace
  refine ⟨t.reverse, ?_⟩
  have hr := congrArg List.reverse ht
  rw [List.reverse_append, List.reverse_reverse] at hr
  exact hr

theorem head?_of_prefixOf {α : Type} {l₁ l₂ : List α} (h : l₁ <+: l₂) {a : α}
    (ha : l₁.head? = some a) : l₂.head? = some a := by
  obtain ⟨t, rfl⟩ := h
  cases l₁ with
  | nil => exact Option.noConfusion ha
  | cons b s => exact ha

theorem trimChars_head {l : List Char} {a : Char}
    (h : (trimChars l).head? = some a) : a.isWhitespace = false := by
  unfold trimChars at h
  have h2 := head?_of_prefixOf (dropTrailing_isPrefixOf (dropLeading l)) h
  exact head?_dropWhile_false _ _ h2

theorem trimChars_last {l : List Char} {a : Char}
    (h : (trimChars l).reverse.head? = some a) : a.isWhitespace = false := by
  unfold trimChars dropTrailing at h
  rw [List.reverse_reverse] at h
  exact head?_dropWhile_false _ _ h

theorem trimChars_map_normChar (l : List Char) :
    trimChars ((trimChars l).map (fun ch => repChar (lowerChar ch))) =
      (trimChars l).map (fun ch => repChar (lowerChar ch)) := by
  have hlead : dropLeading ((trimChars l).map
      (fun ch => repChar (lowerChar ch))) =
      (trimChars l).map (fun ch => repChar (lowerChar ch)) := by
    apply dropWhile_eq_self_of_head
    intro a ha
    rw [List.head?_map] at ha
    cases hh : (trimChars l).head? with
    | none => rw [hh] at ha; exact Option.noConfusion ha
    | some b =>
      rw [hh] at ha
      have hb := trimChars_head hh
      have hab : a = repChar (lowerChar b) := (Option.some.inj ha).symm
      rw [hab]
      exact ws_normChar_false hb
  have htrail : dropTrailing ((trimChars l).map
      (fun ch => repChar (lowerChar ch))) =
      (trimChars l).map (fun ch => repChar (lowerChar ch)) := by
    unfold dropTrailing
    rw [dropWhile_eq_self_of_head, List.reverse_reverse]
    intro a ha
    rw [← List.map_reverse, List.head?_map] at ha
    cases hh : (trimChars l).reverse.head? with
    | none => rw [hh] at ha; exact Option.noConfusion ha
    | some b =>
      rw [hh] at ha
      have hb := trimChars_last hh
      have hab : a = repChar (lowerChar b) := (Option.some.inj ha).symm
      rw [hab]
      exact ws_normChar_false hb
  show dropTrailing (dropLeading ((trimChars l).map
    (fun ch => repChar (lowerChar ch)))) = _
  rw [hlead, htrail]

theorem normalizeName_idem (s : String) :
    normalizeName (normalizeName s) = normalizeName s := by
  show String.mk ((trimChars (String.mk ((trimChars s.data).map
    (fun ch => repChar (lowerChar ch)))).data).map
      (fun ch => repChar (lowerChar ch))) = _
  show String.mk ((trimChars ((trimChars s.data).map
    (fun ch => repChar (lowerChar ch)))).map
      (fun ch => repChar (lowerChar ch))) = _
  rw [trimChars_map_normChar]
  congr 1
  rw [List.map_map]
  exact List.map_congr_left (fun a _ => normChar_idem a)

theorem normalizeName_hosp :
    normalizeName "hospitalization_rate" = "hospitalization_rate" := by
  decide

theorem nmCol_idem (c : String) : nmCol (nmCol c) = nmCol c := by
  by_cases h : normalizeName c = "monthlyrate"
  · have h1 : nmCol c = "hospitalization_rate" := by
      unfold nmCol renameCol
      rw [if_pos h]
    rw [h1]
    show renameCol (normalizeName "hospitalization_rate") = "hospitalization_rate"
    rw [normalizeName_hosp]
    unfold renameCol
    rw [if_neg (by decide)]
  · have h1 : nmCol c = normalizeName c := by
      unfold nmCol renameCol
      rw [if_neg h]
    rw [h1]
    show renameCol (normalizeName (normalizeName c)) = normalizeName c
    rw [normalizeName_idem]
    unfold renameCol
    rw [if_neg h]

theorem nmCol_date : nmCol "date" = "date" := by decide

theorem nmCol_ym : nmCol "_yearmonth" = "_yearmonth" := by decide

/-! Stability of the year-month cleaning on codes that already parsed, and
entry-level preservation lemmas. -/

theorem parseYearMonth_shape {ys : String} {n : Nat}
    (h : parseYearMonth ys = some n) :
    ys.data.length = 6 ∧ ys.data.all Char.isDigit = true := by
  unfold parseYearMonth at h
  by_cases hc : ys.data.length = 6 ∧ ys.data.all Char.isDigit
  · exact ⟨hc.1, hc.2⟩
  · rw [if_neg hc] at h
    exact Option.noConfusion h

theorem stripDotZero_digits {ys : String}
    (h : ys.data.all Char.isDigit = true) : stripDotZero ys = ys := by
  unfold stripDotZero
  rw [if_neg]
  intro hc
  have hdot : ('.' : Char) ∈ ys.data.reverse.take 2 := by
    rw [hc]
    decide
  have hmem : ('.' : Char) ∈ ys.data :=
    List.mem_reverse.mp (List.mem_of_mem_take hdot)
  have := List.all_eq_true.mp h '.' hmem
  exact Bool.noConfusion this

theorem zfill6_of_len6 {ys : String} (h : ys.data.length = 6) :
    zfill6 ys = ys := by
  unfold zfill6 zfillChars
  rw [if_pos (by rw [h])]

theorem cleanYm_of_parsed {ys : String} {n : Nat}
    (h : parseYearMonth ys = some n) : cleanYm (Value.str ys) = ys := by
  obtain ⟨hlen, hdig⟩ := parseYearMonth_shape h
  show zfill6 (stripDotZero ys) = ys
  rw [stripDotZero_digits hdig, zfill6_of_len6 hlen]

theorem updateEntry_preserve_entries {c c' : String} {v w : Value} {r : Row}
    (hne : c' ≠ c) (h : ∀ p ∈ r, p.1 = c' → p.2 = w) :
    ∀ p ∈ updateEntry c v r, p.1 = c' → p.2 = w := by
  intro p hp hc'
  obtain ⟨q, hq, h1, h2⟩ := mem_updateEntry_entry hp
  rcases h2 with rfl | ⟨hpc, -⟩
  · exact h p hq hc'
  · exact absurd (hc' ▸ hpc) hne

theorem keys_fixed_of_mem_normStage {df : DataFrame} {r : Row}
    (hr : r ∈ (normStage df).rows) : ∀ p ∈ r, nmCol p.1 = p.1 := by
  obtain ⟨r₀, -, hmap⟩ := List.mem_map.mp hr
  subst hmap
  intro p hp
  obtain ⟨q, -, hq⟩ := List.mem_map.mp hp
  subst hq
  exact nmCol_idem q.1

theorem keys_fixed_updateEntry {c : String} {v : Value} {r : Row}
    (h : ∀ p ∈ r, nmCol p.1 = p.1) :
    ∀ p ∈ updateEntry c v r, nmCol p.1 = p.1 := by
  intro p hp
  obtain ⟨q, hq, h1, -⟩ := mem_updateEntry_entry hp
  rw [h1]
  exact h q hq

theorem keys_fixed_dateRowStep {r : Row} (h : ∀ p ∈ r, nmCol p.1 = p.1) :
    ∀ p ∈ dateRowStep r, nmCol p.1 = p.1 := by
  intro p hp
  unfold dateRowStep at hp
  rcases mem_setEntry_entry hp with ⟨q, hq, h1, -⟩ | hpd
  · rw [h1]
    exact keys_fixed_updateEntry h q hq
  · rw [hpd]
    exact nmCol_date

theorem normStage_fixed {df : DataFrame}
    (hc : ∀ c ∈ df.cols, nmCol c = c)
    (hr : ∀ r ∈ df.rows, ∀ p ∈ r, nmCol p.1 = p.1) :
    normStage df = df := by
  unfold normStage
  obtain ⟨cols, rows⟩ := df
  simp only at hc hr
  congr 1
  · rw [List.map_congr_left (g := id) (fun c hcm => hc c hcm),
      List.map_id]
  · rw [List.map_congr_left (g := id), List.map_id]
    intro r hrm
    show r.map (fun p => (nmCol p.1, p.2)) = r
    rw [List.map_congr_left (g := id), List.map_id]
    intro p hp
    show (nmCol p.1, p.2) = p
    rw [hr r hrm p hp]

/-- Shape of a frame returned by a successful `preprocess`: the key columns
are present and normalization-fixed, and every surviving row carries a
cleaned six-digit code, its parsed date, and (when the rate column is
present) a numeric rate — in every entry keyed by those columns. -/
theorem preprocess_out_facts {df out : DataFrame}
    (hp : preprocess df = Except.ok out) :
    "_yearmonth" ∈ out.cols ∧ "date" ∈ out.cols ∧
    (∀ c ∈ out.cols, nmCol c = c) ∧
    (∀ r ∈ out.rows,
      (∀ p ∈ r, nmCol p.1 = p.1) ∧
      (∃ ys n, parseYearMonth ys = some n ∧
        getV r "_yearmonth" = Value.str ys ∧
        (∀ p ∈ r, p.1 = "_yearmonth" → p.2 = Value.str ys) ∧
        getV r "date" = Value.date n ∧
        (∀ p ∈ r, p.1 = "date" → p.2 = Value.date n) ∧
        (r.lookup "date").isSome = true) ∧
      ("hospitalization_rate" ∈ out.cols →
        ∃ q, getV r "hospitalization_rate" = Value.num q ∧
          (∀ p ∈ r, p.1 = "hospitalization_rate" → p.2 = Value.num q))) := by
  obtain ⟨mid, hd, hout⟩ := preprocess_ok hp
  obtain ⟨hymN, hcolsmid, hrowsmid⟩ := dateStage_ok hd
  have hymMid : "_yearmonth" ∈ mid.cols := by
    rw [hcolsmid]
    by_cases hdN : "date" ∈ (normStage df).cols
    · rwa [if_pos hdN]
    · rw [if_neg hdN]
      exact List.mem_append_left _ hymN
  have hdateMid : "date" ∈ mid.cols := by
    rw [hcolsmid]
    by_cases hdN : "date" ∈ (normStage df).cols
    · rwa [if_pos hdN]
    · rw [if_neg hdN]
      exact List.mem_append_right _ (List.mem_singleton.mpr rfl)
  have hcolsFixN : ∀ c ∈ (normStage df).cols, nmCol c = c := by
    intro c hc
    have hNC : (normStage df).cols = df.cols.map nmCol := rfl
    rw [hNC] at hc
    obtain ⟨c₀, -, hc₀⟩ := List.mem_map.mp hc
    rw [← hc₀]
    exact nmCol_idem c₀
  have hcolsFixMid : ∀ c ∈ mid.cols, nmCol c = c := by
    intro c hc
    rw [hcolsmid] at hc
    by_cases hdN : "date" ∈ (normStage df).cols
    · rw [if_pos hdN] at hc
      exact hcolsFixN c hc
    · rw [if_neg hdN] at hc
      rcases List.mem_append.mp hc with h1 | h1
      · exact hcolsFixN c h1
      · rw [List.mem_singleton.mp h1]
        exact nmCol_date
  have hrowsFactsMid : ∀ r ∈ mid.rows,
      (∀ p ∈ r, nmCol p.1 = p.1) ∧
      (∃ ys n, parseYearMonth ys = some n ∧
        getV r "_yearmonth" = Value.str ys ∧
        (∀ p ∈ r, p.1 = "_yearmonth" → p.2 = Value.str ys) ∧
        getV r "date" = Value.date n ∧
        (∀ p ∈ r, p.1 = "date" → p.2 = Value.date n) ∧
        (r.lookup "date").isSome = true) := by
    intro r hr
    rw [hrowsmid] at hr
    obtain ⟨hmem, hpred⟩ := List.mem_filter.mp hr
    obtain ⟨r₀, hr₀, hstep⟩ := List.mem_map.mp hmem
    subst hstep
    refine ⟨keys_fixed_dateRowStep (keys_fixed_of_mem_normStage hr₀), ?_⟩
    obtain ⟨ys, n, hparse, hgd, hgy, hed, hey, hsome⟩ :=
      dateRowStep_facts (of_decide_eq_true hpred)
    exact ⟨ys, n, hparse, hgy, hey, hgd, hed, hsome⟩
  have hratene1 : ("_yearmonth" : String) ≠ "hospitalization_rate" := by
    decide
  have hratene2 : ("date" : String) ≠ "hospitalization_rate" := by decide
  unfold rateStage at hout
  by_cases hrc : "hospitalization_rate" ∈ mid.cols
  · rw [if_pos hrc] at hout
    subst hout
    refine ⟨hymMid, hdateMid, hcolsFixMid, ?_⟩
    intro r hr
    obtain ⟨hmem, hpred⟩ := List.mem_filter.mp hr
    obtain ⟨r₁, h₁, hupd⟩ := List.mem_map.mp hmem
    obtain ⟨hkeys₁, ys, n, hparse, hgy, hey, hgd, hed, hsome⟩ :=
      hrowsFactsMid r₁ h₁
    subst hupd
    refine ⟨keys_fixed_updateEntry hkeys₁,
      ⟨ys, n, hparse, ?_, ?_, ?_, ?_, ?_⟩, ?_⟩
    · rw [getV_updateEntry_ne hratene1]
      exact hgy
    · exact updateEntry_preserve_entries hratene1 hey
    · rw [getV_updateEntry_ne hratene2]
      exact hgd
    · exact updateEntry_preserve_entries hratene2 hed
    · rw [lookup_updateEntry_ne hratene2]
      exact hsome
    · intro _
      have hnn : getV (updateEntry "hospitalization_rate"
          (toNumericV (getV r₁ "hospitalization_rate")) r₁)
          "hospitalization_rate" ≠ Value.null := of_decide_eq_true hpred
      have hgv : getV (updateEntry "hospitalization_rate"
          (toNumericV (getV r₁ "hospitalization_rate")) r₁)
          "hospitalization_rate" =
          ((r₁.lookup "hospitalization_rate").map
            (fun _ => toNumericV (getV r₁ "hospitalization_rate"))).getD
            Value.null := by
        unfold getV
        rw [lookup_updateEntry_self]
      cases hl : r₁.lookup "hospitalization_rate" with
      | none =>
        rw [hgv, hl] at hnn
        exact absurd rfl hnn
      | some w =>
        rw [hgv, hl] at hnn
        obtain ⟨q, hq⟩ := toNumericV_ne_null
          (v := getV r₁ "hospitalization_rate") hnn
        refine ⟨q, ?_, ?_⟩
        · rw [hgv, hl]
          exact hq
        · intro p hp hpc
          have hpv := updateEntry_entries hp hpc
          rw [hpv, hq]
  · rw [if_neg hrc] at hout
    subst hout
    refine ⟨hymMid, hdateMid, hcolsFixMid, ?_⟩
    intro r hr
    obtain ⟨hkeys, hfacts⟩ := hrowsFactsMid r hr
    exact ⟨hkeys, hfacts, fun hc => absurd hc hrc⟩

/-- C3: `preprocess` is idempotent: composing it with itself (through the
error monad, since `preprocess` raises on a missing `_yearmonth` column)
changes nothing — column names are already normalized, the rename is a
no-op, the cleaned codes re-clean to themselves, dates re-parse to the same
value, and numeric rates pass through the coercion unchanged. -/
theorem preprocess_idem :
    ∀ df : DataFrame, (preprocess df).bind preprocess = preprocess df := by
  intro df
  cases hp : preprocess df with
  | error e => rfl
  | ok out =>
    show preprocess out = Except.ok out
    obtain ⟨hym, hdate, hcols, hrows⟩ := preprocess_out_facts hp
    have hnorm : normStage out = out :=
      normStage_fixed hcols (fun r hr => (hrows r hr).1)
    have hstep : ∀ r ∈ out.rows, dateRowStep r = r := by
      intro r hr
      obtain ⟨-, ⟨ys, n, hparse, hgy, hey, hgd, hed, hsome⟩, -⟩ :=
        hrows r hr
      unfold dateRowStep
      rw [hgy, cleanYm_of_parsed hparse]
      show setEntry "date" (dateOfYm ys)
        (updateEntry "_yearmonth" (Value.str ys) r) = r
      rw [updateEntry_of_all hey]
      have hdofym : dateOfYm ys = Value.date n := by
        unfold dateOfYm
        rw [hparse]
      rw [hdofym]
      unfold setEntry
      rw [if_pos hsome]
      exact updateEntry_of_all hed
    have hpred : ∀ r ∈ out.rows,
        decide (getV r "date" ≠ Value.null) = true := by
      intro r hr
      obtain ⟨-, ⟨ys, n, -, -, -, hgd, -, -⟩, -⟩ := hrows r hr
      apply decide_eq_true
      rw [hgd]
      exact fun h => Value.noConfusion h
    have hds : dateStage out = Except.ok out := by
      unfold dateStage
      rw [if_pos hym]
      congr 1
      have h1 : (if "date" ∈ out.cols then out.cols
          else out.cols ++ ["date"]) = out.cols := if_pos hdate
      have h2 : out.rows.map dateRowStep = out.rows := by
        rw [List.map_congr_left (g := id) (fun r hr => hstep r hr),
          List.map_id]
      have h3 : out.rows.filter
          (fun r => decide (getV r "date" ≠ Value.null)) = out.rows :=
        List.filter_eq_self.mpr hpred
      rw [h1, h2, h3]
    have hrs : rateStage out = out := by
      unfold rateStage
      by_cases hrc : "hospitalization_rate" ∈ out.cols
      · rw [if_pos hrc]
        have h2 : out.rows.map
            (fun r => updateEntry "hospitalization_rate"
              (toNumericV (getV r "hospitalization_rate")) r) = out.rows := by
          rw [List.map_congr_left (g := id), List.map_id]
          intro r hr
          obtain ⟨-, -, hrate⟩ := hrows r hr
          obtain ⟨q, hgq, hallq⟩ := hrate hrc
          show updateEntry "hospitalization_rate"
            (toNumericV (getV r "hospitalization_rate")) r = r
          rw [hgq]
          exact updateEntry_of_all hallq
        have h3 : out.rows.filter
            (fun r => decide (getV r "hospitalization_rate" ≠ Value.null)) =
            out.rows := by
          apply List.filter_eq_self.mpr
          intro r hr
          obtain ⟨-, -, hrate⟩ := hrows r hr
          obtain ⟨q, hgq, -⟩ := hrate hrc
          apply decide_eq_true
          rw [hgq]
          exact fun h => Value.noConfusion h
        rw [h2, h3]
      · rw [if_neg hrc]
    unfold preprocess
    rw [hnorm, hds]
    show Except.ok (rateStage out) = Except.ok out
    rw [hrs]

end PjmfCovid
